import Mathlib

/-!
Shallow embedding of `public/script.js` (chaotic glitch grid sketch) and
verification of the specified properties of its layout, glitch-propagation,
beat-detection and flash-countdown logic.

JS numbers are modelled by exact rationals `ℚ` (the spec states all numeric
invariants up to floating tolerance; over `ℚ` they hold exactly), grid
indices by `ℤ` (JS indices may be negative in the recursive spread), and the
2-D `grid` array by a function `ℤ → ℤ → Bool`.
-/

namespace Chaos

/-- `let cols = 15` — number of columns in the grid. -/
def cols : ℤ := 15

/-- `let rows = 10` — number of rows in the grid. -/
def rows : ℤ := 10

/-- `createCanvas(1200, 800)` — canvas width. -/
def width : ℚ := 1200

/-- `createCanvas(1200, 800)` — canvas height. -/
def height : ℚ := 800

/-- `let contrast = 3` — exponent sharpening the noise variation. -/
def contrast : ℕ := 3

/-- `let glitchDuration = 1000` — how long a glitch session lasts (ms). -/
def glitchDuration : ℚ := 1000

/-- `let glitchOverlayDuration = 300` — how long the RGB overlay lasts (ms). -/
def glitchOverlayDuration : ℚ := 300

/-! ## NoisePartition

`draw` recomputes the column widths from noise samples:
`rawC[i] = pow(n, contrast) * strengthSlider.value() + 0.0001`,
`sumC = rawC.reduce((a,b) => a+b, 0)`, `colWidths[i] = rawC[i]/sumC * width`
(and identically for `rowHeights` against `height`). We model one recompute
as a function of the vector of noise samples. -/

/-- One raw weight: `pow(n, contrast) * strength + 0.0001`. -/
def rawWeight (strength n : ℚ) : ℚ := n ^ contrast * strength + 1 / 10000

/-- One partition recompute: normalize the raw weights to `total`
(`width` for columns, `height` for rows). -/
def computeSizes (ns : List ℚ) (strength total : ℚ) : List ℚ :=
  let raw := ns.map (rawWeight strength)
  let s := raw.sum
  raw.map (fun w => w / s * total)

/-! ## Helper lemmas for the partition -/

lemma sum_map_div_mul (l : List ℚ) (s t : ℚ) :
    (l.map (fun w => w / s * t)).sum = l.sum / s * t := by
  induction l with
  | nil => simp
  | cons a l ih => simp [ih, add_div, add_mul]

lemma rawWeight_pos (strength n : ℚ) (hs : 0 ≤ strength) (hn : 0 ≤ n) :
    0 < rawWeight strength n := by
  have h1 : 0 ≤ n ^ contrast * strength :=
    mul_nonneg (pow_nonneg hn _) hs
  have h2 : (0 : ℚ) < 1 / 10000 := by norm_num
  unfold rawWeight
  linarith

/-- C1. For every noise-sample vector (each sample in `[0,1]`, at least one
sample) and every `strength ≥ 0`, one partition recompute yields sizes that
are all strictly positive and sum exactly to the total extent. -/
theorem computeSizes_normalized (ns : List ℚ) (strength total : ℚ)
    (hne : ns ≠ []) (hns : ∀ n ∈ ns, 0 ≤ n ∧ n ≤ 1)
    (hs : 0 ≤ strength) (ht : 0 < total) :
    (∀ x ∈ computeSizes ns strength total, 0 < x) ∧
      (computeSizes ns strength total).sum = total := by
  have hraw : ∀ w ∈ ns.map (rawWeight strength), 0 < w := by
    intro w hw
    rcases List.mem_map.mp hw with ⟨n, hn, rfl⟩
    exact rawWeight_pos strength n hs (hns n hn).1
  have hrawne : ns.map (rawWeight strength) ≠ [] := by
    simpa using hne
  have hsum : 0 < (ns.map (rawWeight strength)).sum :=
    List.sum_pos _ hraw hrawne
  constructor
  · intro x hx
    simp only [computeSizes] at hx
    rcases List.mem_map.mp hx with ⟨w, hw, rfl⟩
    exact mul_pos (div_pos (hraw w hw) hsum) ht
  · simp only [computeSizes]
    rw [sum_map_div_mul, div_self (ne_of_gt hsum), one_mul]

/-- Witness for `computeSizes_normalized` at a concrete input. -/
theorem computeSizes_normalized_witness :
    (Chaos.computeSizes [1/2] 1 1200).sum = 1200 :=
  (computeSizes_normalized [1/2] 1 1200 (by simp)
    (by intro n hn; simp at hn; subst hn; norm_num)
    (by norm_num) (by norm_num)).2

/-- C8. With `strength = 0`, for any noise input every raw weight collapses
to the `0.0001` floor, so the recompute yields the uniform partition (every
size equals `total / count`); no division by zero occurs. -/
theorem computeSizes_uniform (ns : List ℚ) (total : ℚ) :
    computeSizes ns 0 total =
      List.replicate ns.length (total / ns.length) := by
  have hmap : ns.map (rawWeight 0) = List.replicate ns.length (1 / 10000) := by
    rw [← List.map_const]
    exact List.map_congr_left (fun n _ => by simp [rawWeight])
  simp only [computeSizes]
  rw [hmap, List.sum_replicate, List.map_replicate]
  rcases Nat.eq_zero_or_pos ns.length with h0 | hpos
  · simp [h0]
  · have hlen : ((ns.length : ℚ)) ≠ 0 := by exact_mod_cast hpos.ne'
    rw [nsmul_eq_mul]
    congr 1
    field_simp

/-! ## GlitchSpreader

`spreadGlitch(i, j, depth)` terminates when `depth <= 0`, `(i,j)` is out of
bounds, or the cell is unfilled; otherwise it pushes `(i,j)` onto
`glitchCells` and schedules, after 40 ms, recursive calls to all 8 neighbors
with `depth - 1`.  Because scheduled callbacks never overlap and the only
mutation is pushing cells, the set of cells eventually pushed by one wave is
the pure recursive collection below.  The fuel argument mirrors the JS
`depth` counter: `spreadGlitch` converts the JS integer depth via `toNat`,
so `depth <= 0` is exactly fuel `0`. -/

/-- The 8 neighbor offsets, in the order of the nested `di`/`dj` loops
(skipping `(0,0)`). -/
def neighborOffsets : List (ℤ × ℤ) :=
  [(-1, -1), (-1, 0), (-1, 1), (0, -1), (0, 1), (1, -1), (1, 0), (1, 1)]

/-- The bounds check of `spreadGlitch`:
`i < 0 || i >= cols || j < 0 || j >= rows`. -/
def outOfBounds (i j : ℤ) : Prop := i < 0 ∨ cols ≤ i ∨ j < 0 ∨ rows ≤ j

instance (i j : ℤ) : Decidable (outOfBounds i j) := by
  unfold outOfBounds; infer_instance

/-- A cell index pair that is inside the `cols × rows` grid. -/
def inBounds (i j : ℤ) : Prop := 0 ≤ i ∧ i < cols ∧ 0 ≤ j ∧ j < rows

instance (i j : ℤ) : Decidable (inBounds i j) := by
  unfold inBounds; infer_instance

/-- Cells pushed onto `glitchCells` by one complete `spreadGlitch` wave,
with the JS `depth` counter as structural fuel. -/
def spreadGlitchN (g : ℤ → ℤ → Bool) : ℕ → ℤ → ℤ → List (ℤ × ℤ)
  | 0, _, _ => []
  | d + 1, i, j =>
    if outOfBounds i j then []
    else if g i j = false then []
    else (i, j) ::
      neighborOffsets.flatMap (fun p => spreadGlitchN g d (i + p.1) (j + p.2))

/-- `spreadGlitch(i, j, depth)` with the JS (possibly negative) depth. -/
def spreadGlitch (g : ℤ → ℤ → Bool) (i j : ℤ) (depth : ℤ) : List (ℤ × ℤ) :=
  spreadGlitchN g depth.toNat i j

/-- A grid in which only cell `(2,2)` is filled. -/
def gridOnly22 : ℤ → ℤ → Bool := fun i j => decide (i = 2 ∧ j = 2)

lemma mem_spreadGlitchN (g : ℤ → ℤ → Bool) :
    ∀ (d : ℕ) (i j : ℤ) (c : ℤ × ℤ), c ∈ spreadGlitchN g d i j →
      inBounds c.1 c.2 ∧ g c.1 c.2 = true := by
  intro d
  induction d with
  | zero => intro i j c hc; simp [spreadGlitchN] at hc
  | succ d ih =>
    intro i j c hc
    rw [spreadGlitchN] at hc
    by_cases hb : outOfBounds i j
    · simp [hb] at hc
    · rw [if_neg hb] at hc
      by_cases hg : g i j = false
      · simp [hg] at hc
      · rw [if_neg hg] at hc
        rcases List.mem_cons.mp hc with rfl | hmem
        · refine ⟨?_, ?_⟩
          · unfold outOfBounds at hb
            unfold inBounds
            push_neg at hb
            exact ⟨hb.1, hb.2.1, hb.2.2.1, hb.2.2.2⟩
          · simpa using hg
        · rcases List.mem_flatMap.mp hmem with ⟨p, _, hp⟩
          exact ih (i + p.1) (j + p.2) c hp

/-- C2. No spread wave ever records a cell that is out of grid bounds or
unfilled; and on the grid where only `(2,2)` is filled, `spread((2,2),3)`
records exactly `(2,2)` (so it includes `(2,2)` and no other cell). -/
theorem spreadGlitch_gating :
    (∀ (g : ℤ → ℤ → Bool) (i j depth : ℤ) (c : ℤ × ℤ),
      c ∈ spreadGlitch g i j depth → inBounds c.1 c.2 ∧ g c.1 c.2 = true) ∧
    spreadGlitch gridOnly22 2 2 3 = [(2, 2)] := by
  constructor
  · intro g i j depth c hc
    exact mem_spreadGlitchN g depth.toNat i j c hc
  · rfl

/-- Witness for `spreadGlitch_gating` at a concrete input: the cell `(2,2)`
recorded by `spread((2,2),3)` on `gridOnly22` is in bounds and filled. -/
theorem spreadGlitch_gating_witness :
    inBounds (2 : ℤ) (2 : ℤ) ∧ gridOnly22 2 2 = true :=
  spreadGlitch_gating.1 gridOnly22 2 2 3 (2, 2) (by decide)

lemma mem_neighborOffsets_abs :
    ∀ p ∈ neighborOffsets, p.1.natAbs ≤ 1 ∧ p.2.natAbs ≤ 1 := by decide

lemma spreadGlitchN_ring (g : ℤ → ℤ → Bool) :
    ∀ (d : ℕ) (i j : ℤ) (c : ℤ × ℤ), c ∈ spreadGlitchN g d i j →
      |c.1 - i| ≤ (d : ℤ) - 1 ∧ |c.2 - j| ≤ (d : ℤ) - 1 := by
  intro d
  induction d with
  | zero => intro i j c hc; simp [spreadGlitchN] at hc
  | succ d ih =>
    intro i j c hc
    rw [spreadGlitchN] at hc
    by_cases hb : outOfBounds i j
    · simp [hb] at hc
    · rw [if_neg hb] at hc
      by_cases hg : g i j = false
      · simp [hg] at hc
      · rw [if_neg hg] at hc
        rcases List.mem_cons.mp hc with rfl | hmem
        · constructor <;> simp
        · rcases List.mem_flatMap.mp hmem with ⟨p, hpmem, hp⟩
          have habs := mem_neighborOffsets_abs p hpmem
          have h1 : |p.1| ≤ 1 := by
            rw [Int.abs_eq_natAbs]; exact_mod_cast habs.1
          have h2 : |p.2| ≤ 1 := by
            rw [Int.abs_eq_natAbs]; exact_mod_cast habs.2
          have hd := ih (i + p.1) (j + p.2) c hp
          constructor
          · have : |c.1 - i| ≤ |c.1 - (i + p.1)| + |p.1| := by
              have := abs_add (c.1 - (i + p.1)) p.1
              simpa [sub_add_eq_sub_sub, sub_add_cancel] using this
            have hcast : ((d + 1 : ℕ) : ℤ) - 1 = (d : ℤ) := by push_cast; ring
            rw [hcast]
            linarith [hd.1]
          · have : |c.2 - j| ≤ |c.2 - (j + p.2)| + |p.2| := by
              have := abs_add (c.2 - (j + p.2)) p.2
              simpa [sub_add_eq_sub_sub, sub_add_cancel] using this
            have hcast : ((d + 1 : ℕ) : ℤ) - 1 = (d : ℤ) := by push_cast; ring
            rw [hcast]
            linarith [hd.2]

/-- C5. A `spread(origin, 1)` wave records at most the origin itself (the
recursive neighbor calls all receive depth `0` and terminate), and in
general every cell a spread wave records lies within Chebyshev distance
`depth - 1` of the origin. -/
theorem spreadGlitch_depth_bound :
    (∀ (g : ℤ → ℤ → Bool) (i j : ℤ),
      spreadGlitch g i j 1 = [] ∨ spreadGlitch g i j 1 = [(i, j)]) ∧
    (∀ (g : ℤ → ℤ → Bool) (i j depth : ℤ) (c : ℤ × ℤ),
      c ∈ spreadGlitch g i j depth →
        |c.1 - i| ≤ depth - 1 ∧ |c.2 - j| ≤ depth - 1) := by
  constructor
  · intro g i j
    unfold spreadGlitch
    rw [show ((1 : ℤ)).toNat = 1 from rfl, spreadGlitchN]
    by_cases hb : outOfBounds i j
    · left; rw [if_pos hb]
    · rw [if_neg hb]
      by_cases hg : g i j = false
      · left; rw [if_pos hg]
      · right; rw [if_neg hg]; rfl
  · intro g i j depth c hc
    simp only [spreadGlitch] at hc
    have h := spreadGlitchN_ring g depth.toNat i j c hc
    have hdpos : 0 < depth.toNat := by
      rcases Nat.eq_zero_or_pos depth.toNat with h0 | hp
      · rw [h0] at hc; simp [spreadGlitchN] at hc
      · exact hp
    have hcast : ((depth.toNat : ℤ)) = depth := by
      rcases le_or_lt 0 depth with hge | hlt
      · exact Int.toNat_of_nonneg hge
      · exfalso
        have : depth.toNat = 0 := Int.toNat_of_nonpos hlt.le
        omega
    rw [hcast] at h
    exact h

/-- Witness for `spreadGlitch_depth_bound`: the cell `(2,2)` recorded by
`spread((2,2),3)` lies within Chebyshev distance `3 - 1` of the origin. -/
theorem spreadGlitch_depth_bound_witness :
    |(2 : ℤ) - 2| ≤ (3 : ℤ) - 1 ∧ |(2 : ℤ) - 2| ≤ (3 : ℤ) - 1 :=
  spreadGlitch_depth_bound.2 gridOnly22 2 2 3 (2, 2) (by decide)

/-! ## BeatDetector

Per frame, `draw` runs
`let level = amplitude.getLevel();`
`let flashCount = floor(map(level, 0, 0.4, 0, 15));`
`if (level - lastLevel > 0.1) { ...set flashCount random cells to 4... }`
`lastLevel = level;`
Note that p5's `map` is called WITHOUT its optional clamping flag, so it
extrapolates linearly outside the source range. -/

/-- p5's `map(value, start1, stop1, start2, stop2)` without bounds clamping:
pure linear interpolation/extrapolation. -/
def mapRange (v a1 b1 a2 b2 : ℚ) : ℚ := (v - a1) / (b1 - a1) * (b2 - a2) + a2

/-- `floor(map(level, 0, 0.4, 0, 15))` — how many cells flash on a beat. -/
def flashCount (level : ℚ) : ℤ := ⌊mapRange level 0 (2/5) 0 15⌋

/-- One `onLevel` step of the beat detector: from the stored `lastLevel` and
the fresh `level`, the fired event (`some intensity` iff
`level - lastLevel > 0.1`) and the unconditionally updated `lastLevel`. -/
def onLevel (lastLevel level : ℚ) : Option ℤ × ℚ :=
  (if 1/10 < level - lastLevel then some (flashCount level) else none, level)

/-- C3 counterexample. The claim says intensity is clamped to 15 for levels
above 0.4; but `map` is unclamped in the code: at `level = 0.8` the computed
intensity is 30, not 15. -/
theorem flashCount_not_clamped : flashCount (4/5) = 30 ∧ flashCount (4/5) ≠ 15 := by
  constructor
  · unfold flashCount mapRange
    norm_num
  · unfold flashCount mapRange
    norm_num

/-- C3 (amended). The beat intensity equals `floor(map(level, 0, 0.4, 0, 15))`
with no clamping: for every level strictly above `0.4` the intensity is at
least 15 and grows without bound (the linear map extrapolates). -/
theorem flashCount_formula :
    (∀ level : ℚ, flashCount level = ⌊mapRange level 0 (2/5) 0 15⌋) ∧
    (∀ level : ℚ, 2/5 < level → 15 ≤ flashCount level) := by
  constructor
  · intro level; rfl
  · intro level hl
    unfold flashCount mapRange
    have h : (15 : ℚ) ≤ (level - 0) / (2/5 - 0) * (15 - 0) + 0 := by
      have he : (level - 0) / (2/5 - 0) * (15 - 0) + 0 = level * (75/2) := by
        field_simp
        ring
      rw [he]
      linarith
    calc (15 : ℤ) = ⌊(15 : ℚ)⌋ := by norm_num
      _ ≤ ⌊(level - 0) / (2/5 - 0) * (15 - 0) + 0⌋ := Int.floor_le_floor h

/-- Witness for `flashCount_formula` at `level = 4/5`. -/
theorem flashCount_formula_witness : (15 : ℤ) ≤ flashCount (4/5) :=
  flashCount_formula.2 (4/5) (by norm_num)

/-- C4. A beat event fires iff the fresh level exceeds the stored one by
more than `0.1`; `lastLevel` is updated to the fresh level on every call;
on the sequence `[0.1, 0.35]` (from initial `lastLevel = 0`) the first call
fires nothing and the second fires with intensity 13, while on
`[0.1, 0.15]` no call fires. -/
theorem onLevel_spike :
    (∀ lastLevel level : ℚ,
      (onLevel lastLevel level).2 = level ∧
      ((onLevel lastLevel level).1.isSome = decide (1/10 < level - lastLevel))) ∧
    (onLevel 0 (1/10)).1 = none ∧
    onLevel (1/10) (7/20) = (some 13, 7/20) ∧
    (onLevel (1/10) (3/20)).1 = none := by
  refine ⟨?_, ?_, ?_, ?_⟩
  · intro lastLevel level
    constructor
    · rfl
    · by_cases h : 1/10 < level - lastLevel
      · simp only [onLevel]
        rw [if_pos h, Option.isSome_some]
        exact (decide_eq_true h).symm
      · simp only [onLevel]
        rw [if_neg h, Option.isSome_none]
        exact (decide_eq_false h).symm
  · simp only [onLevel]
    rw [if_neg (by norm_num)]
  · have h13 : flashCount (7/20) = 13 := by
      unfold flashCount mapRange
      norm_num [Int.floor_eq_iff]
    simp only [onLevel, h13]
    rw [if_pos (by norm_num)]
  · simp only [onLevel]
    rw [if_neg (by norm_num)]

/-! ## GridState flash counters

In the render pass, a cell with `beatFlash[i][j] > 0` renders in flash mode
and then executes `beatFlash[i][j]--`; the counter is untouched otherwise.
A beat event sets `beatFlash[i][j] = 4`. -/

/-- Value a beat event stores into a cell's flash counter. -/
def setFlashFrames : ℤ := 4

/-- One render frame's effect on one cell's flash counter: decrement only
when strictly positive. -/
def tickFlash (c : ℤ) : ℤ := if 0 < c then c - 1 else c

/-- C7. Setting a flash counter to 4 and running four frame decrements
leaves exactly 0; a fifth frame leaves it at 0; and a frame never drives a
nonnegative counter negative (decrements happen only when positive). -/
theorem tickFlash_countdown :
    tickFlash (tickFlash (tickFlash (tickFlash setFlashFrames))) = 0 ∧
    tickFlash (tickFlash (tickFlash (tickFlash (tickFlash setFlashFrames)))) = 0 ∧
    (∀ c : ℤ, 0 ≤ c → 0 ≤ tickFlash c) := by
  refine ⟨by decide, by decide, ?_⟩
  intro c hc
  unfold tickFlash
  by_cases h : 0 < c
  · rw [if_pos h]; omega
  · rw [if_neg h]; exact hc

/-- Witness for `tickFlash_countdown`: the never-negative clause at `c = 0`. -/
theorem tickFlash_countdown_witness : (0 : ℤ) ≤ tickFlash 0 :=
  tickFlash_countdown.2.2 0 (by decide)

/-- Cell picked by one beat-flash iteration:
`i = floor(random(cols)); j = floor(random(rows))`, where `random(x)`
returns a value in `[0, x)`. -/
def pickBeatCell (rc rr : ℚ) : ℤ × ℤ := (⌊rc⌋, ⌊rr⌋)

/-- C10. Whenever the two random draws lie in their documented ranges
`[0, cols)` and `[0, rows)`, the picked cell indices are in grid bounds, so
`beatFlash[i][j] = 4` never indexes out of range. -/
theorem pickBeatCell_inBounds (rc rr : ℚ)
    (hc0 : 0 ≤ rc) (hc1 : rc < (cols : ℚ))
    (hr0 : 0 ≤ rr) (hr1 : rr < (rows : ℚ)) :
    inBounds (pickBeatCell rc rr).1 (pickBeatCell rc rr).2 := by
  unfold pickBeatCell inBounds
  refine ⟨?_, ?_, ?_, ?_⟩
  · exact Int.le_floor.mpr (by exact_mod_cast hc0)
  · exact Int.floor_lt.mpr hc1
  · exact Int.le_floor.mpr (by exact_mod_cast hr0)
  · exact Int.floor_lt.mpr hr1

/-- Witness for `pickBeatCell_inBounds` at concrete random draws. -/
theorem pickBeatCell_inBounds_witness :
    inBounds (pickBeatCell (29/2) (19/2)).1 (pickBeatCell (29/2) (19/2)).2 :=
  pickBeatCell_inBounds (29/2) (19/2) (by norm_num)
    (by norm_num [cols]) (by norm_num) (by norm_num [rows])

/-! ## FrameOrchestrator state

The sketch's mutable globals that the glitch/overlay logic touches, gathered
into one state record.  `grid` is the cell fill state, `glitchCells` the
active glitch-cell list, and the two `Start` fields hold `millis()`
timestamps. -/

structure SketchState where
  grid : ℤ → ℤ → Bool
  playing : Bool
  glitchActive : Bool
  glitchCells : List (ℤ × ℤ)
  glitchStart : ℚ
  glitchOverlayActive : Bool
  glitchOverlayStart : ℚ
  colWidths : List ℚ
  rowHeights : List ℚ

/-- The per-frame expiry check at the top of `draw`:
`if (glitchActive && millis() > glitchStart + glitchDuration) {
   glitchActive = false; glitchCells = []; }`. -/
def expireGlitch (s : SketchState) (now : ℚ) : SketchState :=
  if s.glitchActive = true ∧ s.glitchStart + glitchDuration < now then
    { s with glitchActive := false, glitchCells := [] }
  else s

/-- The body of the `setTimeout` callback scheduled when `spreadGlitch`
visited `(i, j)` with `depth`: recurse into all 8 neighbors with
`depth - 1`, each recursion contributing its pushes to `glitchCells`.  It
reads neither `glitchActive` nor any session token — there is no
cancellation check. -/
def spreadStep (s : SketchState) (i j depth : ℤ) : SketchState :=
  { s with glitchCells := s.glitchCells ++ neighborOffsets.flatMap (fun p => spreadGlitch s.grid (i + p.1) (j + p.2) (depth - 1)) }

lemma not_outOfBounds_of_inBounds {i j : ℤ} (h : inBounds i j) :
    ¬ outOfBounds i j := by
  unfold inBounds at h
  unfold outOfBounds
  omega

lemma spreadGlitch_self_mem (g : ℤ → ℤ → Bool) (i j d : ℤ)
    (hb : inBounds i j) (hf : g i j = true) (hd : 1 ≤ d) :
    (i, j) ∈ spreadGlitch g i j d := by
  unfold spreadGlitch
  obtain ⟨k, hk⟩ : ∃ k, d.toNat = k + 1 := ⟨d.toNat - 1, by omega⟩
  rw [hk, spreadGlitchN, if_neg (not_outOfBounds_of_inBounds hb),
    if_neg (by simp [hf])]
  exact List.mem_cons_self _ _

/-- C6. A scheduled spread step is never cancelled: executed after the
owning session has expired (`glitchActive = false`, cell set emptied), it
still appends each filled in-bounds neighbor to the glitch-cell set, and it
does not reactivate (or consult) the session flag. -/
theorem spreadStep_uncancelled (s : SketchState) (i j depth di dj : ℤ)
    (hexp : s.glitchActive = false)
    (hmem : (di, dj) ∈ neighborOffsets)
    (hb : inBounds (i + di) (j + dj))
    (hf : s.grid (i + di) (j + dj) = true)
    (hd : 2 ≤ depth) :
    (i + di, j + dj) ∈ (spreadStep s i j depth).glitchCells ∧
      (spreadStep s i j depth).glitchActive = false := by
  constructor
  · unfold spreadStep
    refine List.mem_append.mpr (Or.inr ?_)
    refine List.mem_flatMap.mpr ⟨(di, dj), hmem, ?_⟩
    exact spreadGlitch_self_mem s.grid (i + di) (j + dj) (depth - 1) hb hf
      (by omega)
  · unfold spreadStep
    exact hexp

/-- The index scan of `mousePressed`: walk the size list accumulating
offsets until the coordinate falls inside `[acc, acc + sizes[k])`; `none`
models the `-1` sentinel surviving the loop. -/
def findCellIdx : List ℚ → ℚ → ℚ → ℕ → Option ℕ
  | [], _, _, _ => none
  | w :: ws, x, acc, k =>
    if acc ≤ x ∧ x < acc + w then some k
    else findCellIdx ws x (acc + w) (k + 1)

/-- `mousePressed()`: map the click to a cell; if both scans hit and the
sketch is playing, reset the glitch-cell set, activate glitch session and
RGB overlay with `startTime = millis()`, and start a depth-3 wave at the
clicked cell (the wave's eventual pushes are folded in, since scheduled
steps are uncancelled and only append); if not playing, toggle the cell. -/
def mousePressed (s : SketchState) (mouseX mouseY now : ℚ) : SketchState :=
  match findCellIdx s.colWidths mouseX 0 0, findCellIdx s.rowHeights mouseY 0 0 with
  | some ci, some rj =>
    if s.playing then
      { s with
        glitchCells := spreadGlitch s.grid ci rj 3,
        glitchActive := true,
        glitchStart := now,
        glitchOverlayActive := true,
        glitchOverlayStart := now }
    else
      { s with grid := fun a b =>
          if a = (ci : ℤ) ∧ b = (rj : ℤ) then !(s.grid a b) else s.grid a b }
  | _, _ => s

/-- C9. For every in-bounds click while playing — whatever the current
session state — the handler activates the glitch session and the overlay,
resets both start times to the click time, and replaces the previous
glitch-cell set with the wave started at the clicked cell. -/
theorem mousePressed_restart (s : SketchState) (mouseX mouseY now : ℚ)
    (ci rj : ℕ)
    (hp : s.playing = true)
    (hci : findCellIdx s.colWidths mouseX 0 0 = some ci)
    (hrj : findCellIdx s.rowHeights mouseY 0 0 = some rj) :
    (mousePressed s mouseX mouseY now).glitchActive = true ∧
    (mousePressed s mouseX mouseY now).glitchOverlayActive = true ∧
    (mousePressed s mouseX mouseY now).glitchStart = now ∧
    (mousePressed s mouseX mouseY now).glitchOverlayStart = now ∧
    (mousePressed s mouseX mouseY now).glitchCells =
      spreadGlitch s.grid ci rj 3 := by
  unfold mousePressed
  rw [hci, hrj]
  simp only [hp, if_true]
  exact ⟨trivial, trivial, trivial, trivial, trivial⟩

/-- A concrete sketch state: only `(2,2)` filled, playing, a stale glitch
session active, and the uniform initial partition from `setup`. -/
def demoState : SketchState :=
  { grid := gridOnly22
    playing := true
    glitchActive := true
    glitchCells := [(0, 0)]
    glitchStart := 5
    glitchOverlayActive := false
    glitchOverlayStart := 5
    colWidths := List.replicate 15 80
    rowHeights := List.replicate 10 80 }

/-- The demo state after its glitch session expired. -/
def expiredState : SketchState :=
  { demoState with glitchActive := false, glitchCells := [] }

/-- Witness for `mousePressed_restart`: a click at `(200, 180)` on the
uniform partition lands in cell `(2, 2)` and restarts the session. -/
theorem mousePressed_restart_witness :
    (mousePressed demoState 200 180 7).glitchActive = true ∧
    (mousePressed demoState 200 180 7).glitchOverlayActive = true ∧
    (mousePressed demoState 200 180 7).glitchStart = 7 ∧
    (mousePressed demoState 200 180 7).glitchOverlayStart = 7 ∧
    (mousePressed demoState 200 180 7).glitchCells =
      spreadGlitch demoState.grid (2 : ℕ) (2 : ℕ) 3 :=
  mousePressed_restart demoState 200 180 7 2 2 rfl
    (by norm_num [demoState, findCellIdx, List.replicate])
    (by norm_num [demoState, findCellIdx, List.replicate])

/-- Witness for `spreadStep_uncancelled`: on the expired session, the
scheduled step from `(1,1)` at depth 3 still records the filled neighbor
`(2,2)` and leaves the session inactive. -/
theorem spreadStep_uncancelled_witness :
    ((1 : ℤ) + 1, (1 : ℤ) + 1) ∈ (spreadStep expiredState 1 1 3).glitchCells ∧
      (spreadStep expiredState 1 1 3).glitchActive = false :=
  spreadStep_uncancelled expiredState 1 1 3 1 1 rfl (by decide) (by decide)
    rfl (by decide)

end Chaos
